import Mathlib

/-!
Verification development for the llmdb document store (Go + SQLite).

The Go source is shallowly embedded: Go strings become `List Char`, the
per-collection SQLite table becomes a list of rows holding the stored column
encodings (JSON text for metadata, comma-joined text for tags, a little-endian
byte blob for the float32 vector, 0/1 integers for booleans), and each store
operation becomes a pure Lean function mirroring the Go control flow.
float32 values are represented by their 32-bit IEEE-754 bit patterns
(naturals below 2^32), exactly the representation `math.Float32bits` /
`math.Float32frombits` convert through in the source.
-/

namespace LLMDB

/-- Go strings, modelled as their character sequences. -/
abbrev GoStr := List Char

/-- Error conditions surfaced by the store operations (store.go returns them
as formatted Go `error` values; only the condition kind matters here). -/
inductive StoreErr where
  | invalidIdentifier
  | notFound
  | encodingError
  | backendError
deriving Repr, DecidableEq

/-- `isValidTableName` from store.go:158-168: length 1..64 and every character
in `[A-Za-z0-9_]`. (Go checks the byte length; for names passing the character
test the two lengths agree, and any multi-byte rune fails the character test
in both readings, so the character-level reading gives the same verdict.) -/
def isValidTableName (name : GoStr) : Bool :=
  if name.length = 0 || name.length > 64 then false
  else name.all fun c =>
    ('a' ≤ c && c ≤ 'z') || ('A' ≤ c && c ≤ 'Z') || ('0' ≤ c && c ≤ '9') || c = '_'

/-- SQLite identifier quoting as used by every `fmt.Sprintf` in store.go:
the name is spliced between double quotes. -/
def quoteName (name : GoStr) : GoStr := '"' :: name ++ ['"']

/-- The `CREATE TABLE` statement built by `ensureTable` (store.go:85-96);
whitespace is normalised to single spaces. -/
def docTableSQL (name : GoStr) : GoStr :=
  "CREATE TABLE IF NOT EXISTS ".data ++ quoteName name ++
    " (id TEXT PRIMARY KEY, content TEXT NOT NULL, metadata TEXT, tags TEXT, vector BLOB, created_at DATETIME NOT NULL, updated_at DATETIME NOT NULL, is_embedded INTEGER DEFAULT 0)".data

/-- The FTS5 shadow-table statement built by `ensureTable` (store.go:103-110). -/
def ftsTableSQL (name : GoStr) : GoStr :=
  "CREATE VIRTUAL TABLE IF NOT EXISTS ".data ++ quoteName (name ++ "_fts".data) ++
    " USING fts5(id UNINDEXED, content, content=".data ++ quoteName name ++
    ", content_rowid=rowid)".data

/-- `ensureTable` (store.go:78-155): validates the collection name and only
then constructs the DDL statements; an invalid name short-circuits with an
`invalid table name` error before any SQL text is built. -/
def ensureTable (name : GoStr) : Except StoreErr (List GoStr) :=
  if isValidTableName name then .ok [docTableSQL name, ftsTableSQL name]
  else .error .invalidIdentifier

/-- The upsert statement built by `StoreDocument` (store.go:212-222). -/
def storeInsertSQL (name : GoStr) : GoStr :=
  "INSERT INTO ".data ++ quoteName name ++
    " (id, content, metadata, tags, vector, created_at, updated_at, is_embedded) VALUES (?, ?, ?, ?, ?, ?, ?, ?) ON CONFLICT(id) DO UPDATE SET content = excluded.content, metadata = excluded.metadata, tags = excluded.tags, vector = excluded.vector, updated_at = excluded.updated_at, is_embedded = excluded.is_embedded".data

/-- SQL-construction view of `StoreDocument` (store.go:171-228): it calls
`ensureTable` first and returns its error before the insert text is built. -/
def storeDocumentSQL (name : GoStr) : Except StoreErr GoStr :=
  match ensureTable name with
  | .error e => .error e
  | .ok _ => .ok (storeInsertSQL name)

/-- The query built unconditionally by `GetDocument` (store.go:237-241):
no identifier validation precedes the `fmt.Sprintf`. -/
def getDocumentQuery (name : GoStr) : GoStr :=
  "SELECT id, content, metadata, tags, vector, created_at, updated_at, is_embedded FROM ".data
    ++ quoteName name ++ " WHERE id = ?".data

/-- SQL-construction view of `GetDocument`: the query is always constructed. -/
def getDocumentSQL (name : GoStr) : Except StoreErr GoStr :=
  .ok (getDocumentQuery name)

/-- The statement built unconditionally by `DeleteDocument` (store.go:291). -/
def deleteDocumentQuery (name : GoStr) : GoStr :=
  "DELETE FROM ".data ++ quoteName name ++ " WHERE id = ?".data

/-- SQL-construction view of `DeleteDocument`: always constructed. -/
def deleteDocumentSQL (name : GoStr) : Except StoreErr GoStr :=
  .ok (deleteDocumentQuery name)

/-- The query built unconditionally by `ListDocuments` (store.go:438-443).
Note the projection: the `tags` column is not selected. -/
def listDocumentsQuery (name : GoStr) : GoStr :=
  "SELECT id, content, metadata, vector, created_at, updated_at, is_embedded FROM ".data
    ++ quoteName name ++ " ORDER BY created_at DESC LIMIT ? OFFSET ?".data

/-- SQL-construction view of `ListDocuments`: always constructed. -/
def listDocumentsSQL (name : GoStr) : Except StoreErr GoStr :=
  .ok (listDocumentsQuery name)

/-- The query built unconditionally by `SearchFullText` (store.go:323-331),
with the filter fragment left abstract (it holds no identifier text). -/
def searchFullTextQuery (name : GoStr) : GoStr :=
  "SELECT d.id, d.content, d.metadata, d.tags, d.vector, d.created_at, d.updated_at, d.is_embedded, bm25(".data
    ++ quoteName (name ++ "_fts".data) ++ ") as score FROM ".data
    ++ quoteName (name ++ "_fts".data) ++ " JOIN ".data ++ quoteName name
    ++ " d ON rowid = d.rowid WHERE MATCH ? ORDER BY score LIMIT ?".data

/-- SQL-construction view of `SearchFullText`: always constructed. -/
def searchFullTextSQL (name : GoStr) : Except StoreErr GoStr :=
  .ok (searchFullTextQuery name)

/-- The query built unconditionally by `searchVectorSimilarity`
(vector_vtab.go:311-315). -/
def searchVectorQuery (name : GoStr) : GoStr :=
  "SELECT id, content, metadata, tags, vector, created_at, updated_at, is_embedded FROM ".data
    ++ quoteName name ++ " WHERE is_embedded = 1 AND vector IS NOT NULL".data

/-- SQL-construction view of the vector search: always constructed. -/
def searchVectorSQL (name : GoStr) : Except StoreErr GoStr :=
  .ok (searchVectorQuery name)

/-! ## Vector codec (store.go:781-796)

`serializeVector` writes each float32 as its 4-byte little-endian bit
pattern; `deserializeVector` reads `len/4` words back, dropping a trailing
partial word. Here a float32 is its bit pattern, a natural below `2^32`,
and a byte blob is a list of naturals below 256. -/

/-- `serializeVector` (store.go:781-787). -/
def serializeVector (vector : List Nat) : List Nat :=
  vector.flatMap fun w => [w % 256, w / 256 % 256, w / 65536 % 256, w / 16777216 % 256]

/-- `deserializeVector` (store.go:789-796): `binary.LittleEndian.Uint32` on
each 4-byte group; a trailing group of fewer than 4 bytes is dropped
(`make([]float32, len(bytes)/4)`). -/
def deserializeVector : List Nat → List Nat
  | b0 :: b1 :: b2 :: b3 :: rest =>
      (b0 + 256 * b1 + 65536 * b2 + 16777216 * b3) :: deserializeVector rest
  | _ => []

/-! ## Metadata JSON codec

`StoreDocument` stores `json.Marshal(doc.Metadata)` in the `metadata` TEXT
column and `GetDocument` recovers the mapping with `json.Unmarshal`
(store.go:197, 264-269). The Go value is a `map[string]interface{}`; it is
modelled as an association list of keys and scalar JSON values, listed in the
order `json.Marshal` emits them. `encMeta` follows the Go library's compact
output for flat objects (`{"k":v,...}`), restricted to strings that need no
escaping; `unmarshalMeta` models `json.Unmarshal` as a parser of that
format. -/

/-- Scalar JSON metadata values (numbers restricted to integers, which the
library prints without exponent or fraction). -/
inductive MetaVal where
  | str (s : GoStr)
  | num (n : Int)
  | bool (b : Bool)
  | null
deriving Repr, DecidableEq

/-- A metadata mapping: keys with scalar values, in emission order. -/
abbrev Meta := List (GoStr × MetaVal)

/-- A character the Go JSON encoder emits verbatim inside a quoted string
(no `"`, no `\`, no control characters, none of the HTML-escaped `<>&`). -/
def jsonPlain (c : Char) : Bool :=
  32 ≤ c.toNat && c ≠ '"' && c ≠ '\\' && c ≠ '<' && c ≠ '>' && c ≠ '&'

/-- Decimal digits of a natural, most significant first. -/
def natToChars (n : Nat) : GoStr :=
  if h : n < 10 then [Char.ofNat (48 + n)]
  else natToChars (n / 10) ++ [Char.ofNat (48 + n % 10)]
decreasing_by exact Nat.div_lt_self (by omega) (by omega)

/-- Decimal rendering of an integer, as `json.Marshal` prints it. -/
def intToChars (n : Int) : GoStr :=
  if n < 0 then '-' :: natToChars n.natAbs else natToChars n.toNat

/-- Compact JSON rendering of a scalar value. -/
def encVal : MetaVal → GoStr
  | .str s => '"' :: s ++ ['"']
  | .num n => intToChars n
  | .bool true => "true".data
  | .bool false => "false".data
  | .null => "null".data

/-- One `"key":value` member. -/
def encPair (k : GoStr) (v : MetaVal) : GoStr :=
  '"' :: k ++ '"' :: ':' :: encVal v

/-- The members of a flat object followed by the closing brace, so that
`encMeta m = '{' :: encMembersTail m`. -/
def encMembersTail : Meta → GoStr
  | [] => ['}']
  | [(k, v)] => encPair k v ++ ['}']
  | (k, v) :: rest => encPair k v ++ ',' :: encMembersTail rest

/-- Model of `json.Marshal` on a flat object (compact, no spaces). -/
def encMeta (m : Meta) : GoStr := '{' :: encMembersTail m

/-- Model of `json.Unmarshal`: body of a quoted string up to the closing
quote (escape sequences are outside the modelled domain). -/
def parseStrBody : GoStr → Option (GoStr × GoStr)
  | [] => none
  | c :: rest =>
      if c = '"' then some ([], rest)
      else (parseStrBody rest).map fun p => (c :: p.1, p.2)

def isDigit (c : Char) : Bool :=
  (['0', '1', '2', '3', '4', '5', '6', '7', '8', '9'] : List Char).contains c

/-- Longest digit prefix and the remainder. -/
def takeDigits : GoStr → GoStr × GoStr
  | [] => ([], [])
  | c :: cs =>
      if isDigit c then
        let p := takeDigits cs
        (c :: p.1, p.2)
      else ([], c :: cs)

/-- Value of a digit string, most significant first. -/
def digitsVal (ds : GoStr) : Nat :=
  ds.foldl (fun acc c => acc * 10 + (c.toNat - 48)) 0

/-- Parse one scalar JSON value. -/
def parseVal : GoStr → Option (MetaVal × GoStr)
  | '"' :: cs => (parseStrBody cs).map fun p => (.str p.1, p.2)
  | '-' :: cs =>
      match takeDigits cs with
      | ([], _) => none
      | (ds, r) => some (.num (-(digitsVal ds : Int)), r)
  | 't' :: 'r' :: 'u' :: 'e' :: cs => some (.bool true, cs)
  | 'f' :: 'a' :: 'l' :: 's' :: 'e' :: cs => some (.bool false, cs)
  | 'n' :: 'u' :: 'l' :: 'l' :: cs => some (.null, cs)
  | c :: cs =>
      if isDigit c then
        match takeDigits (c :: cs) with
        | (ds, r) => some (.num (digitsVal ds : Int), r)
      else none
  | [] => none

/-- Parse the members of a flat object up to and including the closing
brace. The fuel bounds the recursion by the input length. -/
def parseMembers : Nat → GoStr → Option (Meta × GoStr)
  | 0, _ => none
  | _ + 1, '}' :: rest => some ([], rest)
  | fuel + 1, '"' :: cs =>
      match parseStrBody cs with
      | none => none
      | some (k, cs₁) =>
        match cs₁ with
        | ':' :: cs₂ =>
          match parseVal cs₂ with
          | none => none
          | some (v, cs₃) =>
            match cs₃ with
            | ',' :: cs₄ => (parseMembers fuel cs₄).map fun p => ((k, v) :: p.1, p.2)
            | '}' :: cs₄ => some ([(k, v)], cs₄)
            | _ => none
        | _ => none
  | _ + 1, _ => none

/-- Model of `json.Unmarshal` into a flat `map[string]interface{}`. -/
def unmarshalMeta (s : GoStr) : Option Meta :=
  match s with
  | '{' :: cs =>
      match parseMembers (cs.length + 1) cs with
      | some (m, []) => some m
      | _ => none
  | _ => none

/-- A scalar value inside the modelled (escape-free) JSON domain. -/
def wfVal : MetaVal → Bool
  | .str s => s.all jsonPlain
  | _ => true

/-- A metadata mapping inside the modelled (escape-free) JSON domain. -/
def wfMeta (m : Meta) : Bool :=
  m.all fun p => p.1.all jsonPlain && wfVal p.2

/-- True when the input does not start with a decimal digit, so a preceding
greedy number parse stops exactly there. -/
def nonDigitHead : GoStr → Bool
  | [] => true
  | c :: _ => !isDigit c

/-! ## The per-collection table and the document CRUD operations

A row holds the stored column values of one document, in the encodings the
Go code writes (store.go:86-95 for the column set): `metadata` and `tags` as
TEXT, `vector` as a nullable BLOB (`none` models SQL NULL, which is what the
driver stores for a nil Go byte slice), timestamps as naturals, and
`is_embedded` as the 0/1 integer written by `boolToInt`. -/

structure Row where
  id : GoStr
  content : GoStr
  metadata : GoStr
  tags : GoStr
  vector : Option (List Nat)
  createdAt : Nat
  updatedAt : Nat
  isEmbedded : Nat
deriving Repr, DecidableEq

/-- A collection's table: its rows, `id` being the primary key. -/
abbrev Table := List Row

/-- The in-memory `Document` value (models.go:33-44), with float32 vector
entries as their bit patterns and times as naturals (`0` models Go's zero
`time.Time`). -/
structure Document where
  id : GoStr
  content : GoStr
  metadata : Meta
  tags : List GoStr
  vector : List Nat
  createdAt : Nat
  updatedAt : Nat
  isEmbedded : Bool
deriving Repr, DecidableEq

/-- `boolToInt` (store.go:798-803). -/
def boolToInt (b : Bool) : Nat := if b then 1 else 0

/-- Effect of the `INSERT ... ON CONFLICT(id) DO UPDATE` statement
(store.go:212-222): a fresh id is appended; an existing id has every column
except `created_at` replaced (`created_at` is not in the UPDATE SET list). -/
def upsertRow (t : Table) (r : Row) : Table :=
  if t.any (fun x => x.id == r.id) then
    t.map fun x => if x.id == r.id then { r with createdAt := x.createdAt } else x
  else t ++ [r]

/-- `StoreDocument` (store.go:171-228): assigns `freshId` when the id is
empty, sets `createdAt` to `now` only when it is the zero time, always
refreshes `updatedAt`, marshals metadata, joins tags with `,`, serializes a
non-empty vector (a nil slice stays NULL) upgrading `isEmbedded`, then runs
the upsert. Returns the mutated document and the new table state. -/
def StoreDocument (t : Table) (doc : Document) (now : Nat) (freshId : GoStr) :
    Document × Table :=
  let id := if doc.id = [] then freshId else doc.id
  let createdAt := if doc.createdAt = 0 then now else doc.createdAt
  let metadataJSON := encMeta doc.metadata
  let tagsStr := List.intercalate [','] doc.tags
  let vectorBytes : Option (List Nat) :=
    if doc.vector.length > 0 then some (serializeVector doc.vector) else none
  let isEmb := if doc.vector.length > 0 then true else doc.isEmbedded
  let doc' := { doc with id, createdAt, updatedAt := now, isEmbedded := isEmb }
  let r : Row :=
    { id, content := doc.content, metadata := metadataJSON, tags := tagsStr,
      vector := vectorBytes, createdAt, updatedAt := now,
      isEmbedded := boolToInt isEmb }
  (doc', upsertRow t r)

/-- `GetDocument` (store.go:231-282): looks the row up by id, then
deserializes metadata (only when the stored text is non-empty; a failing
`json.Unmarshal` is an error), tags (split on `,` when non-empty) and the
vector (when the blob is non-NULL and non-empty). -/
def GetDocument (t : Table) (id : GoStr) : Except StoreErr Document :=
  match t.find? (fun r => r.id == id) with
  | none => .error .notFound
  | some r =>
    let tags := if r.tags = [] then [] else r.tags.splitOn ','
    let vector :=
      match r.vector with
      | some bytes => if bytes.length > 0 then deserializeVector bytes else []
      | none => []
    if r.metadata = [] then
      .ok { id := r.id, content := r.content, metadata := [], tags, vector,
            createdAt := r.createdAt, updatedAt := r.updatedAt,
            isEmbedded := r.isEmbedded == 1 }
    else
      match unmarshalMeta r.metadata with
      | none => .error .encodingError
      | some m =>
        .ok { id := r.id, content := r.content, metadata := m, tags, vector,
              createdAt := r.createdAt, updatedAt := r.updatedAt,
              isEmbedded := r.isEmbedded == 1 }

/-- `UpdateDocumentVector` (store.go:613-641): unconditionally serializes
the given vector (a non-nil, possibly empty blob), sets `is_embedded = 1`
and refreshes `updated_at` on the matching row; reports `notFound` when no
row was affected. -/
def UpdateDocumentVector (t : Table) (docID : GoStr) (vector : List Nat) (now : Nat) :
    Except StoreErr Table :=
  let vectorBytes := serializeVector vector
  if t.any (fun r => r.id == docID) then
    .ok (t.map fun r =>
      if r.id == docID then
        { r with vector := some vectorBytes, isEmbedded := 1, updatedAt := now }
      else r)
  else .error .notFound

/-- The documented row invariant (spec §3): `is_embedded` is 1 exactly when
the stored vector blob is present (non-NULL) and non-empty. -/
def rowInv (r : Row) : Bool :=
  (r.isEmbedded == 1) ==
    (match r.vector with
     | some bytes => !bytes.isEmpty
     | none => false)

/-! ## Listing

`ListDocuments` (store.go:432-479) orders by `created_at DESC` with
`LIMIT ? OFFSET ?`. SQLite semantics for the bound parameters: a negative
LIMIT means no bound, a negative OFFSET skips nothing. Ordering among rows
with equal `created_at` is unspecified in SQL; the model fixes one order
with a stable insertion sort. -/

/-- Insert into a descending-sorted list (`le y x` places `x` before `y`). -/
def insertDescBy (le : α → α → Bool) (x : α) : List α → List α
  | [] => [x]
  | y :: ys => if le y x then x :: y :: ys else y :: insertDescBy le x ys

/-- Descending sort by the given `le` test. -/
def sortDescBy (le : α → α → Bool) (l : List α) : List α :=
  l.foldr (insertDescBy le) []

/-- Decode one scanned row the way the read loops that ignore decode errors
do (`json.Unmarshal` result discarded), including the tags column. -/
def scanDocument (r : Row) : Document :=
  { id := r.id, content := r.content,
    metadata := if r.metadata = [] then [] else (unmarshalMeta r.metadata).getD [],
    tags := if r.tags = [] then [] else r.tags.splitOn ',',
    vector :=
      match r.vector with
      | some bytes => if bytes.length > 0 then deserializeVector bytes else []
      | none => [],
    createdAt := r.createdAt, updatedAt := r.updatedAt,
    isEmbedded := r.isEmbedded == 1 }

/-- `ListDocuments` (store.go:432-479): `created_at DESC` order, pagination,
and a projection that selects `id, content, metadata, vector, created_at,
updated_at, is_embedded` — the `tags` column is not in the query, so every
returned document keeps the zero value `nil` for its tag list. -/
def ListDocuments (t : Table) (limit offset : Int) : List Document :=
  let ordered := sortDescBy (fun a b => decide (a.createdAt ≤ b.createdAt)) t
  let afterOffset := ordered.drop (max offset 0).toNat
  let paged := if limit < 0 then afterOffset else afterOffset.take limit.toNat
  paged.map fun r =>
    { id := r.id, content := r.content,
      metadata := if r.metadata = [] then [] else (unmarshalMeta r.metadata).getD [],
      tags := [],
      vector :=
        match r.vector with
        | some bytes => if bytes.length > 0 then deserializeVector bytes else []
        | none => [],
      createdAt := r.createdAt, updatedAt := r.updatedAt,
      isEmbedded := r.isEmbedded == 1 }

/-! ## Filter compiler (store.go:695-779)

`buildFilterClause` turns the filter map into SQL conditions joined with
` AND `, each with bound arguments. The compiled output is modelled as the
list of conditions; ` AND `-joining a condition list is conjunction, so the
evaluation of the compiled fragment on a row is `List.all`. Metadata
equality conditions (`json_extract(metadata, '$.key') = ?`) are kept
abstract via an evaluation parameter — no claim depends on their row-level
semantics — while tag conditions carry SQLite's LIKE semantics in full. -/

/-- Filter values as they arrive from the decoded request body. -/
inductive FilterVal where
  | str (s : GoStr)
  | num (n : Int)
  | bool (b : Bool)
  | strList (l : List GoStr)
deriving Repr, DecidableEq

/-- One compiled condition: the four-pattern tag membership test, or a
metadata field equality. -/
inductive Cond where
  | tagMatch (tag : GoStr)
  | metaEq (key : GoStr) (value : FilterVal)
deriving Repr, DecidableEq

/-- `buildFilterClause` (store.go:709-772), as the list of AND-combined
conditions: the `tags` key accepts a string or a string list (one condition
per tag), `tag` accepts a single string, and every other key compiles to a
metadata equality. The filter map is taken in some iteration order. -/
def buildFilterConds (filters : List (GoStr × FilterVal)) : List Cond :=
  filters.flatMap fun kv =>
    if kv.1 = "tags".data then
      match kv.2 with
      | .str s => [.tagMatch s]
      | .strList l => l.map .tagMatch
      | _ => []
    else if kv.1 = "tag".data then
      match kv.2 with
      | .str s => [.tagMatch s]
      | _ => []
    else [.metaEq kv.1 kv.2]

/-- ASCII lower-casing, the folding SQLite's default LIKE applies. -/
def lowerAscii (c : Char) : Char :=
  if 'A' ≤ c && c ≤ 'Z' then Char.ofNat (c.toNat + 32) else c

/-- SQLite `LIKE` matching: `%` matches any sequence, `_` any single
character, other characters match ASCII-case-insensitively. -/
def likeMatch : GoStr → GoStr → Bool
  | [], [] => true
  | [], _ :: _ => false
  | '%' :: p, s =>
      likeMatch p s ||
        (match s with
         | [] => false
         | _ :: s' => likeMatch ('%' :: p) s')
  | '_' :: p, _ :: s => likeMatch p s
  | '_' :: _, [] => false
  | c :: p, d :: s => (lowerAscii c = lowerAscii d) && likeMatch p s
  | _ :: _, [] => false
termination_by p s => (s.length, p.length)

/-- Row-level truth of one compiled tag condition against the stored
comma-joined tags column (store.go:730-731 and 737-738): exact equality or
one of the three LIKE patterns `tag,%`, `%,tag,%`, `%,tag`. -/
def tagCond (tag tagsCol : GoStr) : Bool :=
  tagsCol == tag ||
    likeMatch (tag ++ [',', '%']) tagsCol ||
    likeMatch ('%' :: ',' :: tag ++ [',', '%']) tagsCol ||
    likeMatch ('%' :: ',' :: tag) tagsCol

/-- Truth of one compiled condition on a row, with metadata-equality
semantics supplied by `metaEval`. -/
def evalCond (metaEval : GoStr → FilterVal → Bool) (tagsCol : GoStr) : Cond → Bool
  | .tagMatch tag => tagCond tag tagsCol
  | .metaEq key value => metaEval key value

/-- Truth of the ` AND `-joined compiled fragment: all conditions hold. -/
def evalConds (metaEval : GoStr → FilterVal → Bool) (tagsCol : GoStr)
    (conds : List Cond) : Bool :=
  conds.all (evalCond metaEval tagsCol)

/-! ## Similarity metrics (vector_vtab.go:255-299)

The Go functions compute over float64. They are modelled over `ℚ` with the
square root left as a function parameter: every property claimed about them
concerns the control flow before any square root is taken (length-mismatch
sentinels and the zero-norm guard), which holds for any interpretation of
`sqrt`. `math.MaxFloat64` is the exact rational `(2 - 2^-52)·2^1023`. -/

/-- Sum of pairwise products (the shared accumulation loop shape). -/
def sumProd (a b : List ℚ) : ℚ :=
  (a.zip b).foldl (fun acc p => acc + p.1 * p.2) 0

/-- `math.MaxFloat64`, exactly. -/
def maxFloat64 : ℚ := (2 - (1 / 2) ^ 52) * 2 ^ 1023

/-- `cosineSimilarity` (vector_vtab.go:255-272): 0 on length mismatch, 0 when
either norm accumulator is zero, otherwise the normalized dot product. -/
def cosineSimilarity (sqrt : ℚ → ℚ) (a b : List ℚ) : ℚ :=
  if a.length ≠ b.length then 0
  else if sumProd a a = 0 ∨ sumProd b b = 0 then 0
  else sumProd a b / (sqrt (sumProd a a) * sqrt (sumProd b b))

/-- `euclideanDistance` (vector_vtab.go:274-286): `math.MaxFloat64` on length
mismatch, otherwise the root of the summed squared differences. -/
def euclideanDistance (sqrt : ℚ → ℚ) (a b : List ℚ) : ℚ :=
  if a.length ≠ b.length then maxFloat64
  else sqrt ((a.zip b).foldl (fun acc p => acc + (p.1 - p.2) * (p.1 - p.2)) 0)

/-- `dotProduct` (vector_vtab.go:288-299): 0 on length mismatch. -/
def dotProduct (a b : List ℚ) : ℚ :=
  if a.length ≠ b.length then 0 else sumProd a b

/-- The per-row score switch of `searchVectorSimilarity`
(vector_vtab.go:353-363): Euclidean distance is negated so higher is better;
an unrecognized metric string falls back to cosine. -/
def metricScore (sqrt : ℚ → ℚ) (metric : GoStr) (queryVector docVector : List ℚ) : ℚ :=
  if metric = "cosine".data then cosineSimilarity sqrt queryVector docVector
  else if metric = "euclidean".data then -euclideanDistance sqrt queryVector docVector
  else if metric = "dot".data then dotProduct queryVector docVector
  else cosineSimilarity sqrt queryVector docVector

/-- A search result (models.go:72-76); `rank` is 0 until assigned. -/
structure SearchResult where
  document : Document
  score : ℚ
  rank : Nat
deriving Repr, DecidableEq

/-- The document a vector-search row scan produces: all scanned columns are
decoded, but the scanned vector blob is only used for scoring — `doc.Vector`
is never assigned, so it stays empty (vector_vtab.go:324-368). -/
def searchScanDocument (r : Row) : Document :=
  { scanDocument r with vector := [] }

/-- `searchVectorSimilarity` (vector_vtab.go:302-388): select rows with
`is_embedded = 1 AND vector IS NOT NULL` and the compiled filter (modelled
by the row predicate `flt`); of those, score exactly the rows whose blob is
non-empty (`len(vectorBytes) > 0`) by the chosen metric against the decoded
float values (`bitsToVal` interprets a float32 bit pattern); sort descending
by score; truncate only when `0 < limit < length`; assign ranks 1,2,…
`sqrt` and `bitsToVal` parameterize the real-number primitives. -/
def searchVectorSimilarity (sqrt : ℚ → ℚ) (bitsToVal : Nat → ℚ) (t : Table)
    (queryVector : List ℚ) (limit : Int) (metric : GoStr) (flt : Row → Bool) :
    List SearchResult :=
  let selected := t.filter fun r => r.isEmbedded == 1 && r.vector.isSome && flt r
  let results : List SearchResult := selected.filterMap fun r =>
    let vectorBytes := r.vector.getD []
    if vectorBytes.length > 0 then
      let docVector := (deserializeVector vectorBytes).map bitsToVal
      some { document := searchScanDocument r,
             score := metricScore sqrt metric queryVector docVector, rank := 0 }
    else none
  let sorted := sortDescBy (fun a b => decide (a.score ≤ b.score)) results
  let truncated :=
    if 0 < limit ∧ limit < (sorted.length : Int) then sorted.take limit.toNat
    else sorted
  truncated.enum.map fun p => { p.2 with rank := p.1 + 1 }

/-- The vector search as claim C5 words it: every selected row (embedded,
non-NULL vector, filter) is scored by the metric, sorted descending,
truncated to `limit`, and ranked 1,2,… in order. -/
def specVectorSearchClaim (sqrt : ℚ → ℚ) (bitsToVal : Nat → ℚ) (t : Table)
    (queryVector : List ℚ) (limit : Int) (metric : GoStr) (flt : Row → Bool) :
    List SearchResult :=
  let selected := t.filter fun r => r.isEmbedded == 1 && r.vector.isSome && flt r
  let results : List SearchResult := selected.map fun r =>
    { document := searchScanDocument r,
      score := metricScore sqrt metric queryVector
        ((deserializeVector (r.vector.getD [])).map bitsToVal),
      rank := 0 }
  let sorted := sortDescBy (fun a b => decide (a.score ≤ b.score)) results
  let truncated := sorted.take limit.toNat
  truncated.enum.map fun p => { p.2 with rank := p.1 + 1 }

/-- The vector search as amended: rows additionally need a non-empty vector
blob to be scored, and truncation applies only when `limit` is positive and
smaller than the result count. -/
def specVectorSearchAmended (sqrt : ℚ → ℚ) (bitsToVal : Nat → ℚ) (t : Table)
    (queryVector : List ℚ) (limit : Int) (metric : GoStr) (flt : Row → Bool) :
    List SearchResult :=
  let selected := t.filter fun r =>
    r.isEmbedded == 1 && r.vector.isSome && (r.vector.getD []).length > 0 && flt r
  let results : List SearchResult := selected.map fun r =>
    { document := searchScanDocument r,
      score := metricScore sqrt metric queryVector
        ((deserializeVector (r.vector.getD [])).map bitsToVal),
      rank := 0 }
  let sorted := sortDescBy (fun a b => decide (a.score ≤ b.score)) results
  let truncated :=
    if 0 < limit ∧ limit < (sorted.length : Int) then sorted.take limit.toNat
    else sorted
  truncated.enum.map fun p => { p.2 with rank := p.1 + 1 }

/-! ## Background embedding scheduler (main.go:224-306)

One cycle of `processNonEmbeddedDocuments` over the world state: the
unembedded documents of every collection of every tenant, as
tenant → collection → oldest-first document list. `embedOk` tells whether
embedding (and the follow-up vector update) succeeds for a document; a
failed document is logged, left unembedded, and does not count against the
cap. Each step returns the processed count and the remaining world. -/

/-- The per-tenant collection loop (main.go:253-298): stop when the cap is
reached; otherwise fetch up to `maxDocs - total` documents, embed each, and
keep the failures and the unfetched tail for the next cycle. -/
def processTables (embedOk : α → Bool) :
    List (List α) → Nat → Nat → Nat × List (List α)
  | [], total, _ => (total, [])
  | tbl :: rest, total, maxDocs =>
    if total ≥ maxDocs then (total, tbl :: rest)
    else
      let remaining := maxDocs - total
      let fetched := tbl.take remaining
      let leftover := fetched.filter (fun d => !embedOk d) ++ tbl.drop remaining
      let p := processTables embedOk rest (total + (fetched.filter embedOk).length) maxDocs
      (p.1, leftover :: p.2)

/-- The tenant loop (main.go:238-299): stop once the cap is reached. -/
def processDatabases (embedOk : α → Bool) :
    List (List (List α)) → Nat → Nat → Nat × List (List (List α))
  | [], total, _ => (total, [])
  | db :: rest, total, maxDocs =>
    if total ≥ maxDocs then (total, db :: rest)
    else
      let p := processTables embedOk db total maxDocs
      let q := processDatabases embedOk rest p.1 maxDocs
      (q.1, p.2 :: q.2)

/-- `processNonEmbeddedDocuments` (main.go:224-306): one cycle with the
hard-coded global cap `maxDocuments = 15`. -/
def processNonEmbeddedDocuments (embedOk : α → Bool)
    (dbs : List (List (List α))) : Nat × List (List (List α)) :=
  processDatabases embedOk dbs 0 15

/-- Total number of unembedded documents in a world state. -/
def worldCount (dbs : List (List (List α))) : Nat :=
  (dbs.map fun db => (db.map List.length).sum).sum

/-! ## Tenant info (store.go:502-546)

`getDBInfo` aggregates with the fixed query
`SELECT COUNT(*), SUM(CASE WHEN is_vectorized = 1 …), MIN(created_at),
MAX(updated_at) FROM documents`. The dynamic schema (`ensureTable`) creates
one table per collection name plus its `_fts` shadow — never a fixed
`documents` table unless a collection carries that name — and its column is
`is_embedded`, not `is_vectorized`. The model resolves the query against
the schema the tenant can actually have. -/

/-- Table names `ensureTable` creates for one collection (store.go:85-110). -/
def ensureTableTables (name : GoStr) : List GoStr :=
  [name, name ++ "_fts".data]

/-- Columns of every dynamically created collection table (store.go:86-95). -/
def docTableColumns : List GoStr :=
  ["id".data, "content".data, "metadata".data, "tags".data, "vector".data,
   "created_at".data, "updated_at".data, "is_embedded".data]

/-- The table the `getDBInfo` query reads from (store.go:512-519). -/
def getDBInfoFromTable : GoStr := "documents".data

/-- The column the `getDBInfo` query aggregates on (store.go:515). -/
def getDBInfoVectorizedColumn : GoStr := "is_vectorized".data

/-- All tables of a tenant whose ensured collections are `collections`. -/
def tenantTables (collections : List GoStr) : List GoStr :=
  collections.flatMap ensureTableTables

/-- Resolution of the `getDBInfo` aggregate query against a tenant's
schema: it errors unless the referenced table exists and that table carries
the referenced column. -/
def getDBInfo (collections : List GoStr) : Except StoreErr Unit :=
  if getDBInfoFromTable ∈ tenantTables collections then
    if getDBInfoVectorizedColumn ∈ docTableColumns then .ok ()
    else .error .backendError
  else .error .backendError


/-! ## Codec correctness lemmas -/

theorem deserializeVector_serializeVector (v : List Nat) (hv : ∀ w ∈ v, w < 2 ^ 32) :
    deserializeVector (serializeVector v) = v := by
  induction v with
  | nil => rfl
  | cons w ws ih =>
    have hw : w < 2 ^ 32 := hv w (List.mem_cons_self w ws)
    have hws : ∀ x ∈ ws, x < 2 ^ 32 := fun x hx => hv x (List.mem_cons_of_mem w hx)
    simp only [serializeVector, List.flatMap_cons, List.cons_append, List.nil_append,
      deserializeVector] at *
    refine congrArg₂ _ ?_ (ih hws)
    omega


theorem parseStrBody_append (s rest : GoStr) (h : ∀ c ∈ s, c ≠ '"') :
    parseStrBody (s ++ '"' :: rest) = some (s, rest) := by
  induction s with
  | nil => simp [parseStrBody]
  | cons c cs ih =>
    have hc : c ≠ '"' := h c (List.mem_cons_self c cs)
    have ih' := ih fun x hx => h x (List.mem_cons_of_mem c hx)
    simp [parseStrBody, hc, ih']

theorem digit_char_cases (c : Char) (h : isDigit c = true) :
    c = '0' ∨ c = '1' ∨ c = '2' ∨ c = '3' ∨ c = '4' ∨
      c = '5' ∨ c = '6' ∨ c = '7' ∨ c = '8' ∨ c = '9' := by
  simpa [isDigit, List.contains, or_comm, or_assoc, or_left_comm] using h

theorem natToChars_ne_nil (n : Nat) : natToChars n ≠ [] := by
  rw [natToChars]
  split <;> simp

theorem natToChars_digits (n : Nat) : ∀ c ∈ natToChars n, isDigit c = true := by
  induction n using Nat.strong_induction_on with
  | _ n ih =>
    rw [natToChars]
    split
    · next h =>
      intro c hc
      simp only [List.mem_singleton] at hc
      subst hc
      interval_cases n <;> decide
    · next h =>
      intro c hc
      simp only [List.mem_append, List.mem_singleton] at hc
      rcases hc with hc | hc
      · exact ih (n / 10) (Nat.div_lt_self (by omega) (by omega)) c hc
      · subst hc
        have h10 : n % 10 < 10 := Nat.mod_lt _ (by omega)
        set k := n % 10 with hk
        interval_cases k <;> decide

theorem digit_toNat (d : Nat) (h : d < 10) : (Char.ofNat (48 + d)).toNat = 48 + d := by
  interval_cases d <;> decide

theorem foldl_digits_natToChars (n a : Nat) :
    (natToChars n).foldl (fun acc c => acc * 10 + (c.toNat - 48)) a =
      a * 10 ^ (natToChars n).length + n := by
  induction n using Nat.strong_induction_on generalizing a with
  | _ n ih =>
    rw [natToChars]
    split
    · next h =>
      simp only [List.foldl, digit_toNat n h, List.length_singleton, pow_one]
      omega
    · next h =>
      have hrec := ih (n / 10) (Nat.div_lt_self (by omega) (by omega)) a
      have hd := digit_toNat (n % 10) (Nat.mod_lt _ (by omega))
      simp only [List.foldl_append, List.foldl, List.length_append, List.length_singleton,
        hrec, hd, pow_succ, ← mul_assoc]
      omega

theorem digitsVal_natToChars (n : Nat) : digitsVal (natToChars n) = n := by
  have := foldl_digits_natToChars n 0
  simpa [digitsVal] using this

theorem takeDigits_append (ds rest : GoStr) (hds : ∀ c ∈ ds, isDigit c = true)
    (hrest : nonDigitHead rest = true) : takeDigits (ds ++ rest) = (ds, rest) := by
  induction ds with
  | nil =>
    cases rest with
    | nil => rfl
    | cons c cs =>
      simp only [nonDigitHead, Bool.not_eq_true'] at hrest
      simp [takeDigits, hrest]
  | cons c cs ih =>
    have hc : isDigit c = true := hds c (List.mem_cons_self c cs)
    have ih' := ih fun x hx => hds x (List.mem_cons_of_mem c hx)
    simp [takeDigits, hc, ih']

theorem jsonPlain_ne_quote {c : Char} (h : jsonPlain c = true) : c ≠ '"' := by
  simp only [jsonPlain, Bool.and_eq_true, decide_eq_true_eq] at h
  tauto

theorem natToChars_cons (n : Nat) : ∃ d ds, natToChars n = d :: ds := by
  cases h : natToChars n with
  | nil => exact absurd h (natToChars_ne_nil n)
  | cons d ds => exact ⟨d, ds, rfl⟩

theorem parseVal_enc (v : MetaVal) (rest : GoStr) (hv : wfVal v = true)
    (hrest : nonDigitHead rest = true) :
    parseVal (encVal v ++ rest) = some (v, rest) := by
  cases v with
  | str s =>
    have hs : ∀ c ∈ s, c ≠ '"' := by
      intro c hc
      simp only [wfVal, List.all_eq_true] at hv
      exact jsonPlain_ne_quote (hv c hc)
    simp only [encVal, List.cons_append, List.append_assoc, List.singleton_append]
    simp [parseVal, parseStrBody_append s rest hs]
  | num n =>
    by_cases hn : n < 0
    · obtain ⟨d, ds, hds⟩ := natToChars_cons n.natAbs
      simp only [encVal, intToChars, if_pos hn, List.cons_append, parseVal]
      rw [takeDigits_append _ _ (natToChars_digits _) hrest, hds]
      simp only [← hds, digitsVal_natToChars]
      have : -(n.natAbs : Int) = n := by omega
      rw [this]
    · obtain ⟨d, ds, hds⟩ := natToChars_cons n.toNat
      have hdig : ∀ c ∈ d :: ds, isDigit c = true := by
        rw [← hds]; exact natToChars_digits n.toNat
      have hd : isDigit d = true := hdig d (List.mem_cons_self d ds)
      have hval : (digitsVal (d :: ds) : Int) = n := by
        rw [← hds, digitsVal_natToChars]; omega
      simp only [encVal, intToChars, if_neg hn, hds, List.cons_append]
      have htake : takeDigits (d :: (ds ++ rest)) = (d :: ds, rest) := by
        rw [← List.cons_append]
        exact takeDigits_append _ _ hdig hrest
      rcases digit_char_cases d hd with rfl | rfl | rfl | rfl | rfl | rfl | rfl | rfl | rfl | rfl <;>
        simp [parseVal, htake, hval] <;> decide
  | bool b => cases b <;> simp [encVal, parseVal]
  | null => simp [encVal, parseVal]

theorem parseMembers_enc (m : Meta) : ∀ (rest : GoStr) (fuel : Nat),
    wfMeta m = true → m.length < fuel →
    parseMembers fuel (encMembersTail m ++ rest) = some (m, rest) := by
  induction m with
  | nil =>
    intro rest fuel _ hfuel
    cases fuel with
    | zero => omega
    | succ f => simp [encMembersTail, parseMembers]
  | cons kv m' ih =>
    intro rest fuel hm hfuel
    obtain ⟨k, v⟩ := kv
    cases fuel with
    | zero => omega
    | succ f =>
    have hm' : wfMeta m' = true := by
      have h := hm
      simp only [wfMeta, List.all_cons, Bool.and_eq_true] at h
      exact h.2
    have hk : ∀ c ∈ k, c ≠ '"' := by
      have h := hm
      simp only [wfMeta, List.all_cons, Bool.and_eq_true, List.all_eq_true] at h
      exact fun c hc => jsonPlain_ne_quote (h.1.1 c hc)
    have hv : wfVal v = true := by
      have h := hm
      simp only [wfMeta, List.all_cons, Bool.and_eq_true] at h
      exact h.1.2
    cases m' with
    | nil =>
      have hshape : encMembersTail [(k, v)] ++ rest =
          '"' :: (k ++ '"' :: ':' :: (encVal v ++ '}' :: rest)) := by
        simp [encMembersTail, encPair]
      have hpv : parseVal (encVal v ++ '}' :: rest) = some (v, '}' :: rest) :=
        parseVal_enc v ('}' :: rest) hv (by simp only [nonDigitHead]; decide)
      rw [hshape]
      simp [parseMembers, parseStrBody_append k _ hk, hpv]
    | cons kv' m'' =>
      have hshape : encMembersTail ((k, v) :: kv' :: m'') ++ rest =
          '"' :: (k ++ '"' :: ':' :: (encVal v ++ ',' :: (encMembersTail (kv' :: m'') ++ rest))) := by
        simp [encMembersTail, encPair]
      have hpv : parseVal (encVal v ++ ',' :: (encMembersTail (kv' :: m'') ++ rest)) =
          some (v, ',' :: (encMembersTail (kv' :: m'') ++ rest)) :=
        parseVal_enc v _ hv (by simp only [nonDigitHead]; decide)
      have hrec := ih rest f hm' (by simpa using Nat.lt_of_succ_lt_succ hfuel)
      rw [hshape]
      simp [parseMembers, parseStrBody_append k _ hk, hpv, hrec]

theorem length_le_encMembersTail (m : Meta) : m.length ≤ (encMembersTail m).length := by
  induction m with
  | nil => simp [encMembersTail]
  | cons kv m' ih =>
    obtain ⟨k, v⟩ := kv
    cases m' with
    | nil => simp [encMembersTail]
    | cons kv' m'' =>
      simp only [encMembersTail, List.length_append, List.length_cons] at *
      omega

theorem unmarshalMeta_encMeta (m : Meta) (hm : wfMeta m = true) :
    unmarshalMeta (encMeta m) = some m := by
  have hlen : m.length < (encMembersTail m).length + 1 :=
    Nat.lt_succ_of_le (length_le_encMembersTail m)
  have h := parseMembers_enc m [] ((encMembersTail m).length + 1) hm hlen
  rw [List.append_nil] at h
  simp [unmarshalMeta, encMeta, h]

theorem length_serializeVector (v : List Nat) :
    (serializeVector v).length = 4 * v.length := by
  induction v with
  | nil => rfl
  | cons w ws ih =>
    simp only [serializeVector, List.flatMap_cons, List.length_append, List.length_cons,
      List.length_nil] at *
    omega

/-! ## Claims -/

/-- Claim C1, counterexample. The claim says every operation that
interpolates a collection name — store, get, delete, list, full-text
search, vector search, schema provisioning — fails with InvalidIdentifier
before any SQL text containing an invalid name is constructed. `GetDocument`
refutes it: on the invalid name `bad name` it performs no validation and
returns the constructed query, which contains the name verbatim. -/
theorem getDocument_builds_sql_with_invalid_name :
    isValidTableName ("bad name".data) = false ∧
    getDocumentSQL ("bad name".data) = .ok (getDocumentQuery ("bad name".data)) ∧
    List.IsInfix ("bad name".data) (getDocumentQuery ("bad name".data)) := by
  refine ⟨by decide, rfl, ?_⟩
  refine ⟨"SELECT id, content, metadata, tags, vector, created_at, updated_at, is_embedded FROM \"".data,
    "\" WHERE id = ?".data, ?_⟩
  decide

/-- Claim C1, amended: only schema provisioning (`ensureTable`) and
`StoreDocument` (which runs `ensureTable` before building its insert
statement) short-circuit with an InvalidIdentifier condition on an invalid
collection name, before any SQL containing the name is constructed; the
read-side operations (get, delete, list, both searches) build their SQL
without validating the name. -/
theorem ensureTable_and_store_validate_before_sql (name : GoStr)
    (h : isValidTableName name = false) :
    ensureTable name = .error .invalidIdentifier ∧
    storeDocumentSQL name = .error .invalidIdentifier ∧
    getDocumentSQL name = .ok (getDocumentQuery name) ∧
    deleteDocumentSQL name = .ok (deleteDocumentQuery name) ∧
    listDocumentsSQL name = .ok (listDocumentsQuery name) ∧
    searchFullTextSQL name = .ok (searchFullTextQuery name) ∧
    searchVectorSQL name = .ok (searchVectorQuery name) := by
  refine ⟨?_, ?_, rfl, rfl, rfl, rfl, rfl⟩
  · simp [ensureTable, h]
  · simp [storeDocumentSQL, ensureTable, h]

/-- Claim C1, witness for the amended theorem at the invalid name
`bad-name`. -/
theorem ensureTable_and_store_validate_before_sql_witness :
    ensureTable ("bad-name".data) = .error .invalidIdentifier ∧
    storeDocumentSQL ("bad-name".data) = .error .invalidIdentifier := by
  have h := ensureTable_and_store_validate_before_sql ("bad-name".data) (by decide)
  exact ⟨h.1, h.2.1⟩

/-- Claim C9: `getDBInfo` can never return the tenant aggregates. Its fixed
query reads table `documents` and column `is_vectorized`, but the dynamic
schema creates only per-collection tables (`name`, `name_fts`) whose flag
column is `is_embedded`; whatever collections a tenant has ensured, the
query fails to resolve and the operation errors instead of aggregating. -/
theorem getDBInfo_never_returns_aggregates (collections : List GoStr) :
    getDBInfo collections = .error .backendError := by
  have hcol : getDBInfoVectorizedColumn ∉ docTableColumns := by decide
  unfold getDBInfo
  split
  · simp [hcol]
  · rfl

set_option maxRecDepth 4000 in
/-- Claim C10: every document returned by `ListDocuments` carries an empty
tag list — the listing query (`listDocumentsQuery`) projects id, content,
metadata, vector, the timestamps and the embedded flag but never the `tags`
column, so the scanned documents keep the zero value for tags even when the
stored row has them. -/
theorem listDocuments_tags_always_empty (t : Table) (limit offset : Int) :
    ((ListDocuments t limit offset).all fun d => d.tags.isEmpty) = true ∧
    ¬ List.IsInfix ("tags".data) (listDocumentsQuery ("docs".data)) := by
  constructor
  · simp only [ListDocuments, List.all_eq_true]
    intro d hd
    simp only [List.mem_map] at hd
    obtain ⟨r, _, rfl⟩ := hd
    rfl
  · decide

theorem length_filter_partition (p : α → Bool) (l : List α) :
    (l.filter p).length + (l.filter fun a => !p a).length = l.length := by
  induction l with
  | nil => rfl
  | cons a l ih =>
    by_cases h : p a = true <;> simp [List.filter, h] <;> omega

theorem processTables_bounds (embedOk : α → Bool) (tables : List (List α))
    (total maxDocs : Nat) (h : total ≤ maxDocs) :
    total ≤ (processTables embedOk tables total maxDocs).1 ∧
    (processTables embedOk tables total maxDocs).1 ≤ maxDocs := by
  induction tables generalizing total with
  | nil => exact ⟨Nat.le_refl _, h⟩
  | cons tbl rest ih =>
    simp only [processTables]
    split
    · exact ⟨Nat.le_refl _, h⟩
    · next hlt =>
      have hfetch : (tbl.take (maxDocs - total)).length ≤ maxDocs - total := by
        simp
      have hfil : (((tbl.take (maxDocs - total)).filter embedOk).length) ≤
          (tbl.take (maxDocs - total)).length := List.length_filter_le _ _
      have h' : total + ((tbl.take (maxDocs - total)).filter embedOk).length ≤ maxDocs := by
        omega
      have := ih (total + ((tbl.take (maxDocs - total)).filter embedOk).length) h'
      exact ⟨Nat.le_trans (Nat.le_add_right _ _) this.1, this.2⟩

theorem processTables_count (embedOk : α → Bool) (tables : List (List α))
    (total maxDocs : Nat) :
    (processTables embedOk tables total maxDocs).1 +
        ((processTables embedOk tables total maxDocs).2.map List.length).sum =
      total + (tables.map List.length).sum := by
  induction tables generalizing total with
  | nil => simp [processTables]
  | cons tbl rest ih =>
    simp only [processTables]
    split
    · simp
    · next hlt =>
      have hpart := length_filter_partition embedOk (tbl.take (maxDocs - total))
      have hlen : (tbl.take (maxDocs - total)).length + (tbl.drop (maxDocs - total)).length
          = tbl.length := by
        rw [← List.length_append, List.take_append_drop]
      have := ih (total + ((tbl.take (maxDocs - total)).filter embedOk).length)
      simp only [List.map_cons, List.sum_cons, List.length_append] at *
      omega

theorem processDatabases_bounds (embedOk : α → Bool) (dbs : List (List (List α)))
    (total maxDocs : Nat) (h : total ≤ maxDocs) :
    (processDatabases embedOk dbs total maxDocs).1 ≤ maxDocs := by
  induction dbs generalizing total with
  | nil => exact h
  | cons db rest ih =>
    simp only [processDatabases]
    split
    · exact h
    · exact ih _ (processTables_bounds embedOk db total maxDocs h).2

theorem processDatabases_count (embedOk : α → Bool) (dbs : List (List (List α)))
    (total maxDocs : Nat) :
    (processDatabases embedOk dbs total maxDocs).1 +
        worldCount (processDatabases embedOk dbs total maxDocs).2 =
      total + worldCount dbs := by
  induction dbs generalizing total with
  | nil => simp [processDatabases, worldCount]
  | cons db rest ih =>
    simp only [processDatabases]
    split
    · simp [worldCount]
    · have htc := processTables_count embedOk db total maxDocs
      have := ih (processTables embedOk db total maxDocs).1
      simp only [worldCount, List.map_cons, List.sum_cons] at *
      omega

/-- Claim C8: one scheduler cycle processes at most 15 documents in total
across all tenants and collections (each collection fetch is capped at
`15 - processed-so-far` and the loops stop once the cap is reached), and
every unprocessed document is still present in the world state left for the
next cycle: processed count plus remaining count equals the initial count. -/
theorem scheduler_cycle_cap (embedOk : α → Bool) (dbs : List (List (List α))) :
    (processNonEmbeddedDocuments embedOk dbs).1 ≤ 15 ∧
    (processNonEmbeddedDocuments embedOk dbs).1 +
        worldCount (processNonEmbeddedDocuments embedOk dbs).2 = worldCount dbs := by
  refine ⟨processDatabases_bounds embedOk dbs 0 15 (by omega), ?_⟩
  simpa using processDatabases_count embedOk dbs 0 15

/-- Claim C4: the compiled tag filter treats the comma-joined tags column as
a delimited set, not a raw substring. A `tags` list compiles to one
condition per tag and the ` AND `-joined fragment evaluates as the
conjunction; a document tagged exactly `["javascript"]` does not satisfy the
condition for tag `java`; a document tagged `["java","script"]` satisfies
`{tag:"java"}` and `{tags:["java","script"]}` but not
`{tags:["java","python"]}`. -/
theorem tag_filter_delimited_set (metaEval : GoStr → FilterVal → Bool)
    (tags : List GoStr) (tagsCol : GoStr) :
    buildFilterConds [("tags".data, .strList tags)] = tags.map .tagMatch ∧
    evalConds metaEval tagsCol (tags.map .tagMatch) =
      tags.all (fun tg => tagCond tg tagsCol) ∧
    tagCond ("java".data) (List.intercalate [','] ["javascript".data]) = false ∧
    evalConds metaEval (List.intercalate [','] ["java".data, "script".data])
      (buildFilterConds [("tag".data, .str ("java".data))]) = true ∧
    evalConds metaEval (List.intercalate [','] ["java".data, "script".data])
      (buildFilterConds [("tags".data, .strList ["java".data, "script".data])]) = true ∧
    evalConds metaEval (List.intercalate [','] ["java".data, "script".data])
      (buildFilterConds [("tags".data, .strList ["java".data, "python".data])]) = false := by
  refine ⟨?_, ?_, ?_, ?_, ?_, ?_⟩
  · simp [buildFilterConds]
  · induction tags with
    | nil => rfl
    | cons tg rest ih =>
      simp only [evalConds, evalCond, List.map_cons, List.all_cons] at *
      rw [ih]
  · simp [List.intercalate, tagCond, likeMatch, lowerAscii]
  · simp [List.intercalate, buildFilterConds, evalConds, evalCond, tagCond, likeMatch, lowerAscii]
  · simp [List.intercalate, buildFilterConds, evalConds, evalCond, tagCond, likeMatch, lowerAscii]
  · simp [List.intercalate, buildFilterConds, evalConds, evalCond, tagCond, likeMatch, lowerAscii]

/-- Claim C6: a stored vector whose length differs from the query vector's
yields the defined sentinel scores instead of an error — Euclidean distance
is `math.MaxFloat64` (so the negated search score is `-maxFloat64`), the dot
product is 0 — and cosine similarity against a zero-norm vector yields 0.
The scan itself is total, so no row aborts it. -/
theorem metric_mismatch_and_zero_norm (sqrt : ℚ → ℚ) (a b : List ℚ) :
    (a.length ≠ b.length →
      euclideanDistance sqrt a b = maxFloat64 ∧
      dotProduct a b = 0 ∧
      metricScore sqrt ("euclidean".data) a b = -maxFloat64 ∧
      metricScore sqrt ("dot".data) a b = 0) ∧
    (sumProd b b = 0 → cosineSimilarity sqrt a b = 0) := by
  constructor
  · intro h
    refine ⟨if_pos h, if_pos h, ?_, ?_⟩
    · rw [metricScore, if_neg (by decide), if_pos rfl, euclideanDistance, if_pos h]
    · rw [metricScore, if_neg (by decide), if_neg (by decide), if_pos rfl, dotProduct, if_pos h]
  · intro h
    unfold cosineSimilarity
    split
    · rfl
    · rw [if_pos (Or.inr h)]

/-- Claim C6, witness: the sentinel values at the concrete mismatched pair
`[1]` versus `[]` and the zero-norm pair `[1,2]` versus `[0,0]`. -/
theorem metric_mismatch_and_zero_norm_witness :
    euclideanDistance (fun _ => 0) [1] [] = maxFloat64 ∧
    dotProduct [1] [] = 0 ∧
    metricScore (fun _ => 0) ("euclidean".data) [1] [] = -maxFloat64 ∧
    metricScore (fun _ => 0) ("dot".data) [1] [] = 0 ∧
    cosineSimilarity (fun _ => 0) [1, 2] [0, 0] = 0 := by
  have h1 := (metric_mismatch_and_zero_norm (fun _ => 0) [1] []).1 (by decide)
  have h2 := (metric_mismatch_and_zero_norm (fun _ => 0) [1, 2] [0, 0]).2 (by norm_num [sumProd])
  exact ⟨h1.1, h1.2.1, h1.2.2.1, h1.2.2.2, h2⟩

/-- Claim C3: storing a second document under an id that is already present
replaces content, metadata, tags, vector, `updatedAt` and `isEmbedded` with
the new document's encodings, while `createdAt` keeps the value recorded at
the first insert (`n₁`) — the upsert's UPDATE list omits `created_at`. -/
theorem upsert_preserves_createdAt (d₁ d₂ : Document) (n₁ n₂ : Nat) (fid : GoStr)
    (hid : d₁.id ≠ []) (hsame : d₂.id = d₁.id) (hcr : d₁.createdAt = 0) :
    (StoreDocument (StoreDocument [] d₁ n₁ fid).2 d₂ n₂ fid).2 =
      [{ id := d₁.id, content := d₂.content, metadata := encMeta d₂.metadata,
         tags := List.intercalate [','] d₂.tags,
         vector := if d₂.vector.length > 0 then some (serializeVector d₂.vector) else none,
         createdAt := n₁, updatedAt := n₂,
         isEmbedded := boolToInt (if d₂.vector.length > 0 then true else d₂.isEmbedded) }] := by
  simp only [StoreDocument, upsertRow, hsame, if_neg hid, hcr, if_pos rfl,
    List.any_nil, List.any_cons, List.map_cons, List.map_nil, Bool.false_or,
    beq_self_eq_true, if_true, Bool.or_self]
  simp

/-- Claim C3, witness: two concrete stores of the same id at times 1 then 2
leave a single row carrying the second content with `createdAt = 1`. -/
theorem upsert_preserves_createdAt_witness :
    (StoreDocument (StoreDocument [] ⟨"a".data, "c1".data, [], [], [], 0, 0, false⟩ 1 []).2
        ⟨"a".data, "c2".data, [], [], [], 0, 0, false⟩ 2 []).2 =
      [⟨"a".data, "c2".data, "{}".data, [], none, 1, 2, 0⟩] := by
  have h := upsert_preserves_createdAt ⟨"a".data, "c1".data, [], [], [], 0, 0, false⟩
    ⟨"a".data, "c2".data, [], [], [], 0, 0, false⟩ 1 2 [] (by decide) rfl rfl
  rw [h]
  decide

/-- Claim C7, counterexample. The claim says every storage operation leaves
every persisted row satisfying `isEmbedded ↔ vector present and non-empty`.
Two refutations: `UpdateDocumentVector` with an empty vector writes an empty
(non-NULL) blob yet sets `is_embedded = 1`; `StoreDocument` of a document
whose caller pre-set `isEmbedded = true` with no vector stores
`is_embedded = 1` with a NULL vector. -/
theorem storage_invariant_counterexample :
    UpdateDocumentVector [⟨"a".data, [], [], [], none, 1, 1, 0⟩] ("a".data) [] 5 =
      .ok [⟨"a".data, [], [], [], some [], 1, 5, 1⟩] ∧
    rowInv ⟨"a".data, [], [], [], some [], 1, 5, 1⟩ = false ∧
    rowInv ⟨"a".data, [], [], [], none, 1, 1, 0⟩ = true ∧
    (StoreDocument [] ⟨"b".data, [], [], [], [], 0, 0, true⟩ 3 []).2 =
      [⟨"b".data, [], "{}".data, [], none, 3, 3, 1⟩] ∧
    rowInv ⟨"b".data, [], "{}".data, [], none, 3, 3, 1⟩ = false := by
  refine ⟨rfl, by decide, by decide, by decide, by decide⟩

theorem all_rowInv_upsertRow (t : Table) (r : Row) (hinv : t.all rowInv = true)
    (hr : ∀ cr, rowInv { r with createdAt := cr } = true) :
    (upsertRow t r).all rowInv = true := by
  unfold upsertRow
  split
  · rw [List.all_eq_true]
    intro x hx
    rw [List.mem_map] at hx
    obtain ⟨y, hy, rfl⟩ := hx
    split
    · exact hr y.createdAt
    · exact (List.all_eq_true.mp hinv) y hy
  · rw [List.all_append, hinv]
    simp only [List.all_cons, List.all_nil, Bool.and_true, Bool.true_and]
    exact hr r.createdAt

/-- Claim C7, amended: after `StoreDocument`, every row satisfies the
invariant `isEmbedded = 1 ↔ vector present and non-empty` provided the rows
already satisfied it and the stored document does not pre-set `isEmbedded`
on an empty vector; after `UpdateDocumentVector` with a non-empty vector,
every row satisfies it provided the previous rows did. -/
theorem storage_operations_establish_invariant :
    (∀ (t : Table) (d : Document) (now : Nat) (fid : GoStr),
        t.all rowInv = true → (d.isEmbedded = false ∨ d.vector ≠ []) →
        (StoreDocument t d now fid).2.all rowInv = true) ∧
    (∀ (t t' : Table) (id : GoStr) (v : List Nat) (now : Nat),
        t.all rowInv = true → v ≠ [] →
        UpdateDocumentVector t id v now = .ok t' → t'.all rowInv = true) := by
  constructor
  · intro t d now fid hinv hd
    have hrow : ∀ (idv : GoStr) (cr : Nat),
        rowInv ⟨idv, d.content, encMeta d.metadata, List.intercalate [','] d.tags,
          (if d.vector.length > 0 then some (serializeVector d.vector) else none), cr, now,
          boolToInt (if d.vector.length > 0 then true else d.isEmbedded)⟩ = true := by
      intro idv cr
      by_cases hv : d.vector.length > 0
      · have hne : serializeVector d.vector ≠ [] := by
          intro hc
          have h2 := length_serializeVector d.vector
          rw [hc] at h2
          simp only [List.length_nil] at h2
          omega
        simp [rowInv, hv, boolToInt, List.isEmpty_iff, hne]
      · have hveq : d.vector = [] := List.length_eq_zero.mp (by omega)
        have hemb : d.isEmbedded = false := by
          rcases hd with h | h
          · exact h
          · exact absurd hveq h
        simp [rowInv, hv, hemb, boolToInt]
    simp only [StoreDocument]
    exact all_rowInv_upsertRow t _ hinv fun cr => hrow _ cr
  · intro t t' id v now hinv hv hup
    have hne : serializeVector v ≠ [] := by
      have := length_serializeVector v
      intro hc
      rw [hc] at this
      simp at this
      rcases v with _ | ⟨x, xs⟩
      · exact hv rfl
      · simp at this
    unfold UpdateDocumentVector at hup
    split at hup
    · injection hup with hup
      subst hup
      rw [List.all_eq_true]
      intro x hx
      rw [List.mem_map] at hx
      obtain ⟨y, hy, rfl⟩ := hx
      split
      · simp [rowInv, List.isEmpty_iff, hne]
      · exact (List.all_eq_true.mp hinv) y hy
    · cases hup

/-- Claim C7, witness for the amended theorem: a store of a document with a
vector and an update with a non-empty vector, both on concrete tables, leave
only invariant-satisfying rows. -/
theorem storage_operations_establish_invariant_witness :
    (StoreDocument [] ⟨"a".data, [], [], [], [7], 0, 0, false⟩ 1 []).2.all rowInv = true ∧
    ([⟨"a".data, [], [], [], none, 1, 1, 0⟩].map fun r =>
        if r.id == "a".data then
          { r with vector := some (serializeVector [9]), isEmbedded := 1, updatedAt := 4 }
        else r).all rowInv = true := by
  constructor
  · exact (storage_operations_establish_invariant.1 [] ⟨"a".data, [], [], [], [7], 0, 0, false⟩
      1 [] (by decide) (Or.inl rfl))
  · exact (storage_operations_establish_invariant.2 [⟨"a".data, [], [], [], none, 1, 1, 0⟩] _
      ("a".data) [9] 4 (by decide) (by decide) rfl)

/-- Claim C2, counterexample. The claim asserts the round trip reproduces
the tag list for every document, but the comma-joined encoding is lossy: a
document whose only tag is `a,b` comes back with the two tags `a`, `b`, and
the single empty tag `[""]` comes back as no tags at all. -/
theorem roundtrip_comma_tag_counterexample :
    GetDocument (StoreDocument [] ⟨"a".data, "c".data, [], ["a,b".data], [], 0, 0, false⟩ 1 []).2
        ("a".data) =
      .ok ⟨"a".data, "c".data, [], ["a".data, "b".data], [], 1, 1, false⟩ ∧
    (["a".data, "b".data] : List GoStr) ≠ ["a,b".data] ∧
    GetDocument (StoreDocument [] ⟨"e".data, "c".data, [], [[]], [], 0, 0, false⟩ 1 []).2
        ("e".data) =
      .ok ⟨"e".data, "c".data, [], [], [], 1, 1, false⟩ ∧
    ([] : List GoStr) ≠ [[]] := by
  refine ⟨rfl, by decide, rfl, by decide⟩

/-- Claim C2, amended: retrieving a document immediately after storing it
reproduces the metadata mapping M (within the modelled escape-free JSON
domain), the tag list T with order preserved, and the vector V bit-for-bit,
provided no tag contains the `,` delimiter and T is not the single empty
tag `[""]` (the two shapes the comma encoding cannot represent). -/
theorem store_get_roundtrip (d : Document) (now : Nat) (fid : GoStr)
    (hmeta : wfMeta d.metadata = true)
    (htags : ∀ tg ∈ d.tags, ',' ∉ tg)
    (hsingle : d.tags ≠ [[]])
    (hvec : ∀ w ∈ d.vector, w < 2 ^ 32) :
    Except.map (fun g => (g.metadata, g.tags, g.vector))
        (GetDocument (StoreDocument [] d now fid).2 (StoreDocument [] d now fid).1.id) =
      .ok (d.metadata, d.tags, d.vector) := by
  simp only [StoreDocument, upsertRow, List.any_nil, Bool.false_eq_true, if_false,
    List.nil_append, GetDocument]
  rw [List.find?_cons_of_pos _ (by simp)]
  dsimp only
  have hmne : encMeta d.metadata ≠ [] := by simp [encMeta]
  rw [if_neg hmne, unmarshalMeta_encMeta d.metadata hmeta]
  have htagsEq : (if List.intercalate [','] d.tags = [] then []
      else (List.intercalate [','] d.tags).splitOn ',') = d.tags := by
    cases hts : d.tags with
    | nil => simp [List.intercalate]
    | cons t0 trest =>
      have hx : ∀ l ∈ t0 :: trest, ',' ∉ l := by
        rw [← hts]; exact htags
      have hsplit := List.splitOn_intercalate (t0 :: trest) ',' hx (by simp)
      by_cases hj : List.intercalate [','] (t0 :: trest) = []
      · exfalso
        rw [hj] at hsplit
        have hempty : (List.splitOn ',' ([] : GoStr)) = [[]] := by decide
        rw [hempty] at hsplit
        rw [hts] at hsingle
        exact hsingle hsplit.symm
      · rw [if_neg hj]
        exact hsplit
  rw [htagsEq]
  have hvecEq : (match (if d.vector.length > 0 then some (serializeVector d.vector) else none :
        Option (List Nat)) with
      | some bytes => if bytes.length > 0 then deserializeVector bytes else []
      | none => ([] : List Nat)) = d.vector := by
    by_cases hv : d.vector.length > 0
    · rw [if_pos hv]
      have hlen : (serializeVector d.vector).length > 0 := by
        rw [length_serializeVector]; omega
      simp only [if_pos hlen]
      exact deserializeVector_serializeVector d.vector hvec
    · rw [if_neg hv]
      have : d.vector = [] := List.length_eq_zero.mp (by omega)
      rw [this]
  rw [hvecEq]
  rfl

/-- Claim C2, witness for the amended round trip at a concrete document with
metadata, two tags and a two-element vector including the maximal bit
pattern. -/
theorem store_get_roundtrip_witness :
    Except.map (fun g => (g.metadata, g.tags, g.vector))
        (GetDocument
          (StoreDocument []
            ⟨"a".data, "hello".data, [("k".data, .str ("v".data)), ("n".data, .num (-3))],
              ["x".data, "y".data], [1, 4294967295], 0, 0, false⟩ 1 []).2
          (StoreDocument []
            ⟨"a".data, "hello".data, [("k".data, .str ("v".data)), ("n".data, .num (-3))],
              ["x".data, "y".data], [1, 4294967295], 0, 0, false⟩ 1 []).1.id) =
      .ok ([("k".data, .str ("v".data)), ("n".data, .num (-3))],
        ["x".data, "y".data], [1, 4294967295]) := by
  exact store_get_roundtrip
    ⟨"a".data, "hello".data, [("k".data, .str ("v".data)), ("n".data, .num (-3))],
      ["x".data, "y".data], [1, 4294967295], 0, 0, false⟩ 1 []
    (by decide) (by decide) (by decide) (by decide)

/-- Claim C5, counterexample. The claim says the search scores every row
with `isEmbedded` true and a non-null vector passing the filter, and
truncates to `limit`. The code refutes both: a row with an empty (but
non-NULL) vector blob is selected by the SQL yet silently dropped by the
`len(vectorBytes) > 0` guard instead of being scored; and a non-positive
`limit` skips truncation entirely, returning every match. -/
theorem vector_search_counterexample :
    searchVectorSimilarity (fun _ => 0) (fun _ => 0)
        [⟨"a".data, [], [], [], some [], 1, 1, 1⟩] [1] 1 ("cosine".data) (fun _ => true) = [] ∧
    specVectorSearchClaim (fun _ => 0) (fun _ => 0)
        [⟨"a".data, [], [], [], some [], 1, 1, 1⟩] [1] 1 ("cosine".data) (fun _ => true) =
      [⟨⟨"a".data, [], [], [], [], 1, 1, true⟩, 0, 1⟩] ∧
    ([] : List SearchResult) ≠ [⟨⟨"a".data, [], [], [], [], 1, 1, true⟩, 0, 1⟩] ∧
    (searchVectorSimilarity (fun _ => 0) (fun _ => 0)
        [⟨"b".data, [], [], [], some [0, 0, 0, 0], 1, 1, 1⟩] [0] 0 ("cosine".data)
        (fun _ => true)).length = 1 ∧
    (specVectorSearchClaim (fun _ => 0) (fun _ => 0)
        [⟨"b".data, [], [], [], some [0, 0, 0, 0], 1, 1, 1⟩] [0] 0 ("cosine".data)
        (fun _ => true)).length = 0 := by
  refine ⟨rfl, rfl, by decide, rfl, rfl⟩

/-- Claim C5, amended: the vector search considers exactly the rows with
`isEmbedded` true, a non-null *and non-empty* vector blob, and a passing
filter; scores each by the selected metric (cosine; Euclidean negated so
higher is better; dot; unrecognized metrics fall back to cosine) against the
decoded vector; sorts descending by score; truncates to `limit` only when
`limit` is positive and below the match count; and assigns ranks 1,2,… in
sorted order. -/
theorem searchVectorSimilarity_eq_spec (sqrt : ℚ → ℚ) (bitsToVal : Nat → ℚ) (t : Table)
    (q : List ℚ) (limit : Int) (metric : GoStr) (flt : Row → Bool) :
    searchVectorSimilarity sqrt bitsToVal t q limit metric flt =
      specVectorSearchAmended sqrt bitsToVal t q limit metric flt := by
  have key : (t.filter fun r => r.isEmbedded == 1 && r.vector.isSome && flt r).filterMap
        (fun r =>
          if (r.vector.getD []).length > 0 then
            some ({ document := searchScanDocument r,
                    score := metricScore sqrt metric q
                      ((deserializeVector (r.vector.getD [])).map bitsToVal),
                    rank := 0 } : SearchResult)
          else none) =
      (t.filter fun r =>
          r.isEmbedded == 1 && r.vector.isSome && (r.vector.getD []).length > 0 && flt r).map
        (fun r =>
          ({ document := searchScanDocument r,
             score := metricScore sqrt metric q
               ((deserializeVector (r.vector.getD [])).map bitsToVal),
             rank := 0 } : SearchResult)) := by
    induction t with
    | nil => rfl
    | cons r rest ih =>
      by_cases hc : (r.vector.getD []).length > 0 <;>
        cases hEmb : (r.isEmbedded == 1) <;> cases hSome : r.vector.isSome <;>
          cases hFlt : flt r <;>
            simp [List.filter_cons, List.filterMap_cons, hEmb, hSome, hFlt, hc, ih]
  exact congrArg (fun results : List SearchResult =>
    (if 0 < limit ∧ limit <
        ((sortDescBy (fun a b => decide (a.score ≤ b.score)) results).length : Int)
     then (sortDescBy (fun a b => decide (a.score ≤ b.score)) results).take limit.toNat
     else sortDescBy (fun a b => decide (a.score ≤ b.score)) results).enum.map
      (fun p => { p.2 with rank := p.1 + 1 })) key

end LLMDB
